import Mathlib

/-!
Shallow embedding of `git-fetch-series.py`: the message model, the thread
accumulator and the archive walker (forward scan, backward scan, mbox
serialization), together with theorems checking the specification's claims.

Machine-level conventions: Python sets of message-id strings are modelled as
`List String` with membership semantics; the NNTP transport is modelled as a
function from message numbers to optional headers (`Nat → Option Message`) and
a body-fetch function (`Nat → List String`); the Python 2 comparison used by
`sorted` is embedded explicitly (`tokLt`, `keyLt`), including the Python 2 rule
that any integer compares below any string.
-/

namespace GitFetchSeries

/-- The `Message` namedtuple: `(number, subject, poster, date, msg_id, references)`. -/
structure Message where
  number : Nat
  subject : String
  poster : String
  date : String
  msg_id : String
  references : List String
deriving DecidableEq

/-! ### subject_identifier

`Thread.subject_identifier` is
`re.sub(r"[0-9]+/", "X/", msg.subject.split("]")[0] + "]")`.
`takeToBracket` embeds `split("]")[0] + "]"`; `replAux` embeds the regex
substitution: a maximal run of digits immediately followed by `/` is replaced
by `X/` (the regex cannot match a non-maximal run: backtracking off the run's
end always faces another digit, never `/`). -/

/-- Text up to and including the first `]`, i.e. `subject.split("]")[0] + "]"`. -/
def takeToBracket : List Char → List Char
  | [] => [(']')]
  | c :: cs => if c = (']') then [(']')] else c :: takeToBracket cs

/-- Scanner for `re.sub(r"[0-9]+/", "X/", s)`; `ds` is the pending maximal
digit run, in reverse. -/
def replAux : List Char → List Char → List Char
  | ds, [] => ds.reverse
  | ds, c :: cs =>
    if c.isDigit then replAux (c :: ds) cs
    else if c = ('/') ∧ ds ≠ [] then ('X') :: ('/') :: replAux [] cs
    else ds.reverse ++ c :: replAux [] cs

/-- `re.sub(r"[0-9]+/", "X/", s)` on a character list. -/
def replNum (l : List Char) : List Char := replAux [] l

/-- `Thread.subject_identifier` on a character list. -/
def identChars (l : List Char) : List Char := replNum (takeToBracket l)

/-- `Thread.subject_identifier(msg)`, as a function of `msg.subject`. -/
def subjectIdentifier (s : String) : String := String.mk (identChars s.data)

/-! ### sortkey

`Thread.sortkey` is `re.split(r"([0-9]+)", msg.subject)` with the odd
(captured) positions converted by `int`.  The result alternates text tokens at
even positions with integer tokens at odd positions. -/

/-- One element of a sortkey: Python leaves text pieces as `str` and converts
the captured digit runs with `int`. -/
inductive Tok where
  | str : String → Tok
  | num : Nat → Tok
deriving DecidableEq

/-- Whether a token is a text token. -/
def Tok.isStr : Tok → Bool
  | .str _ => true
  | .num _ => false

/-- Numeric value of a decimal digit. -/
def digVal (c : Char) : Nat := c.toNat - (('0')).toNat

/-- Scanner for `re.split(r"([0-9]+)", s)` plus `int` conversion.  The state is
either the pending text run (reversed) or the value of the pending digit run. -/
def skStep : List Char ⊕ Nat → List Char → List Tok
  | Sum.inl acc, [] => [Tok.str (String.mk acc.reverse)]
  | Sum.inr n, [] => [Tok.num n, Tok.str (String.mk [])]
  | Sum.inl acc, c :: cs =>
    if c.isDigit then Tok.str (String.mk acc.reverse) :: skStep (Sum.inr (digVal c)) cs
    else skStep (Sum.inl (c :: acc)) cs
  | Sum.inr n, c :: cs =>
    if c.isDigit then skStep (Sum.inr (10 * n + digVal c)) cs
    else Tok.num n :: skStep (Sum.inl [c]) cs

/-- `Thread.sortkey(msg)`, as a function of `msg.subject`. -/
def sortkeyL (s : String) : List Tok := skStep (Sum.inl []) s.data

/-- The key Python's `sorted(..., key=self.sortkey)` computes for a message. -/
def msgKey (m : Message) : List Tok := sortkeyL m.subject

/-! ### Python 2 comparison

`sorted` compares the sortkeys with Python 2 `<`: lexicographic comparison of
lists, strings byte-wise, integers numerically, and — the Python 2 rule for
mixed types — any `int` below any `str`. -/

/-- Lexicographic strict order on lists from a strict order on elements,
as Python compares lists (a strict prefix is smaller). -/
def listLtBy (lt : α → α → Bool) : List α → List α → Bool
  | [], [] => false
  | [], _ :: _ => true
  | _ :: _, [] => false
  | a :: as, b :: bs => if lt a b then true else if lt b a then false else listLtBy lt as bs

/-- Python 2 `<` on characters (byte order, here code-point order). -/
def chLt (a b : Char) : Bool := decide (a < b)

/-- Python 2 `<` on strings. -/
def strLt (a b : String) : Bool := listLtBy chLt a.data b.data

/-- Python 2 `<` on sortkey elements: `int < int` numerically, `str < str`
lexicographically, and `int < str` always (type-name order in CPython 2). -/
def tokLt : Tok → Tok → Bool
  | .num a, .num b => decide (a < b)
  | .str a, .str b => strLt a b
  | .num _, .str _ => true
  | .str _, .num _ => false

/-- Python 2 `<` on sortkeys. -/
def keyLt : List Tok → List Tok → Bool := listLtBy tokLt

/-! ### Thread -/

/-- `Thread.__init__(self, start_msg)` state: `first`, `ignored_references`
(`set(start_msg.references)`), `ids` (`set([start_msg.msg_id])`), `thread`
(`[start_msg]`) and `thread_identifier`. -/
structure Thread where
  first : Message
  ignored_references : List String
  ids : List String
  thread : List Message
  thread_identifier : String
deriving DecidableEq

/-- `Thread(start_msg)`. -/
def mkThread (m : Message) : Thread :=
  { first := m
    ignored_references := m.references
    ids := [m.msg_id]
    thread := [m]
    thread_identifier := subjectIdentifier m.subject }

/-- `set(a) - set(b)` restricted to the elements of `a`. -/
def setDiff (a b : List String) : List String := a.filter fun x => ! decide (x ∈ b)

/-- `set(a) <= set(b)`. -/
def subsetB (a b : List String) : Bool := a.all fun x => decide (x ∈ b)

/-- `Thread.should_include(self, msg)`:
`msg.poster == self.first.poster and
 self.subject_identifier(msg) == self.thread_identifier and
 (set(msg.references) - self.ignored_references) <= self.ids`. -/
def Thread.should_include (t : Thread) (m : Message) : Bool :=
  decide (m.poster = t.first.poster) &&
    decide (subjectIdentifier m.subject = t.thread_identifier) &&
    subsetB (setDiff m.references t.ignored_references) t.ids

/-- `Thread.append(self, msg)`: `self.thread.append(msg); self.ids.add(msg.msg_id)`. -/
def Thread.append (t : Thread) (m : Message) : Thread :=
  { t with thread := t.thread ++ [m], ids := t.ids ++ [m.msg_id] }

/-- Stable insertion of a message into an already sorted list: a new message
goes after every element whose key is not strictly greater, exactly as
Python's stable `sorted` places it. -/
def insSorted (m : Message) : List Message → List Message
  | [] => [m]
  | x :: xs => if keyLt (msgKey m) (msgKey x) then m :: x :: xs else x :: insSorted m xs

/-- Stable sort by `sortkey` (Python's `sorted(self.thread, key=self.sortkey)`). -/
def sortMsgs (l : List Message) : List Message :=
  l.foldl (fun acc m => insSorted m acc) []

/-- `Thread.in_order(self)`. -/
def Thread.in_order (t : Thread) : List Message := sortMsgs t.thread

/-- A thread state reachable by constructing from a seed and performing any
sequence of `append` operations. -/
def buildThread (seed : Message) (ops : List Message) : Thread :=
  ops.foldl Thread.append (mkThread seed)

/-! ### Archive -/

/-- `Archive.is_diff(body)`: some line starts with the literal `"diff "`. -/
def is_diff (body : List String) : Bool := body.any fun l => l.startsWith ("diff ")

/-- Scanner inside a run of `0`s for `re.search(r" 0+/[0-9]+", s)`: more zeros
may follow, then a `/` must be followed by a digit. -/
def zeroSlash : List Char → Bool
  | ('0') :: rest => zeroSlash rest
  | ('/') :: c :: _ => c.isDigit
  | _ => false

/-- After the space of `" 0+/[0-9]+"`: at least one `0` is required. -/
def zeroAfterSpace : List Char → Bool
  | ('0') :: rest => zeroSlash rest
  | _ => false

/-- `re.search(r" 0+/[0-9]+", s)` as a Boolean, trying every start position.
The regex can only match the maximal zero run: backtracking off the run's end
always faces another `0`, never `/`. -/
def zeroSearchL : List Char → Bool
  | [] => false
  | (' ') :: rest => zeroAfterSpace rest || zeroSearchL rest
  | _ :: rest => zeroSearchL rest

/-- The cover-letter test `re.search(r" 0+/[0-9]+", message.subject)`. -/
def zeroSearch (s : String) : Bool := zeroSearchL s.data

/-- The `limit` generator, with its enumeration counter: `if c > limit: raise
StopIteration` (note the strict `>`). -/
def limitAux (lim : Nat) : Nat → List α → List α
  | _, [] => []
  | c, x :: xs => if c > lim then [] else x :: limitAux lim (c + 1) xs

/-- `limit(generator, limit)` applied to a materialized stream. -/
def limitList (l : List α) (lim : Nat) : List α := limitAux lim 0 l

/-- The forward-scan loop of `get_patch_series`: `none` means the loop ran
off the end of the iterator, which triggers the `for ... else` clause
(`FatalError('did not find end of series within %s messages', ...)`). -/
def scanLoop : Thread → Nat → List Message → Option Thread
  | _, _, [] => none
  | t, n, m :: ms =>
    if n > 5 then some t
    else if t.should_include m then scanLoop (t.append m) 0 ms
    else scanLoop t (n + 1) ms

/-- The successive values of `n_since_last` checked against the give-up
threshold, one per loop iteration that draws a message. -/
def streakTrace : Thread → Nat → List Message → List Nat
  | _, _, [] => []
  | t, n, m :: ms =>
    n :: (if n > 5 then []
          else if t.should_include m then streakTrace (t.append m) 0 ms
          else streakTrace t (n + 1) ms)

/-- The two `FatalError` outcomes of the walk that the spec names. -/
inductive RunError where
  | seedNotFound
  | seriesBounds
deriving DecidableEq

/-- `get_patch_series` up to the end of the forward scan, over an abstract
header stream: apply `limit`, take the seed (`messages.next()`), then run the
scan loop; `for ... else` failure becomes `RunError.seriesBounds`. -/
def seriesFromStream (stream : List Message) (searchLimit : Nat) : Except RunError Thread :=
  match limitList stream searchLimit with
  | [] => Except.error RunError.seedNotFound
  | seed :: rest =>
    match scanLoop (mkThread seed) 0 rest with
    | none => Except.error RunError.seriesBounds
    | some t => Except.ok t

/-- `Archive.xover(begin, end)` over an abstract header table: empty when
`begin == end`, otherwise the existing headers numbered from `min` to `max`
inclusive, in ascending numeric order. -/
def xoverM (headers : Nat → Option Message) (b e : Nat) : List Message :=
  if b = e then []
  else (List.range' (min b e) (max b e + 1 - min b e)).filterMap headers

/-- Body of the `while start_id < self.last` loop of
`Archive.messages_starting_from`, with explicit fuel (the Python loop strictly
increases `start_id`, so any fuel above `last` is enough). -/
def msfAux (headers : Nat → Option Message) (last : Nat) : Nat → Nat → List Message
  | 0, _ => []
  | fuel + 1, start =>
    if start < last then
      xoverM headers start (min (start + 20) last) ++
        msfAux headers last fuel (min (start + 20) last + 1)
    else []

/-- `Archive.messages_starting_from(start_id)`, materialized. -/
def messagesStartingFrom (headers : Nat → Option Message) (last start : Nat) : List Message :=
  msfAux headers last (last + 1) start

/-- The backward scan: `for message in self.xover(start_id - 5, start_id - 1):
if thread.should_include(message): thread.append(message)`. -/
def backScan (t : Thread) (msgs : List Message) : Thread :=
  msgs.foldl (fun t m => if t.should_include m then t.append m else t) t

/-- `Archive.get_patch_series` up to (and excluding) `mboxify`: forward scan
from the resolved start number, then the backward scan over the five numbers
before it. -/
def runSeries (headers : Nat → Option Message) (last start searchLimit : Nat) :
    Except RunError Thread :=
  match seriesFromStream (messagesStartingFrom headers last start) searchLimit with
  | Except.error e => Except.error e
  | Except.ok t => Except.ok (backScan t (xoverM headers (start - 5) (start - 1)))

/-- The mbox block `mboxify` emits for one retained message.  `parseName`
stands for `parseaddr(message.poster)[0]` and `fmtDate` for
`ctime(mktime(parsedate(message.date)))`, both external library calls. -/
def blockLines (server group : String) (parseName fmtDate : String → String)
    (m : Message) (body : List String) : List String :=
  [("From ") ++ parseName m.poster ++ (" ") ++ fmtDate m.date,
   ("From: ") ++ m.poster,
   ("Subject: ") ++ m.subject,
   ("Date: ") ++ m.date,
   ("Message-Id: ") ++ m.msg_id,
   ("Xref: ") ++ server ++ (" ") ++ group ++ (":") ++ toString m.number,
   ("References: ") ++ String.intercalate ("\n\t") m.references,
   ("")] ++ body ++ [("")]

/-- The `lines` list built by `Archive.mboxify`: members in `in_order`, a
member being skipped exactly when its subject matches `" 0+/[0-9]+"` and its
body is not a diff. -/
def mboxLines (server group : String) (parseName fmtDate : String → String)
    (conn : Nat → List String) (t : Thread) : List String :=
  t.in_order.foldl
    (fun lines m =>
      if zeroSearch m.subject && ! is_diff (conn m.number) then lines
      else lines ++ blockLines server group parseName fmtDate m (conn m.number))
    []

/-- `Archive.mboxify(thread)`: `"\n".join(lines)`. -/
def mboxify (server group : String) (parseName fmtDate : String → String)
    (conn : Nat → List String) (t : Thread) : String :=
  String.intercalate ("\n") (mboxLines server group parseName fmtDate conn t)

/-- `Archive.get_patch_series` end to end: the document, or the failure. -/
def getSeriesDoc (headers : Nat → Option Message) (server group : String)
    (parseName fmtDate : String → String) (conn : Nat → List String)
    (last start searchLimit : Nat) : Except RunError String :=
  match runSeries headers last start searchLimit with
  | Except.error e => Except.error e
  | Except.ok t => Except.ok (mboxify server group parseName fmtDate conn t)

/-! ### Concrete archives used by witnesses and counterexamples -/

/-- A seed message at archive number 10. -/
def exA : Message := ⟨10, ("[PATCH 1/2] hi"), ("alice"), ("d1"), ("<a@id>"), []⟩

/-- A message at the lower number 7 with the same subject, poster and (empty)
references as `exA`: a backward-scan candidate whose sortkey ties the seed's. -/
def exB : Message := ⟨7, ("[PATCH 1/2] hi"), ("alice"), ("d0"), ("<b@id>"), []⟩

/-- A well-formed follow-up to `exA`: same poster, same subject identifier,
references exactly the seed's message-id. -/
def exC : Message := ⟨11, ("[PATCH 2/2] hi"), ("alice"), ("d2"), ("<c@id>"), [("<a@id>")]⟩

/-- A message unrelated to the series (different poster and subject shape). -/
def exReject (n : Nat) : Message := ⟨n, ("unrelated"), ("zed"), ("d"), ("<r>"), []⟩

/-- An archive holding the seed `exA` at 10, seven unrelated messages at
11–17, and the matching lower-numbered message `exB` at 7. -/
def exHeaders : Nat → Option Message := fun n =>
  if n = 10 then some exA
  else if n = 7 then some exB
  else if 11 ≤ n ∧ n ≤ 17 then some (exReject n)
  else none

/-- The thread the run over `exHeaders` produces: seed `exA`, then `exB`
appended by the backward scan. -/
def exThreadC5 : Thread := (mkThread exA).append exB

/-- A seed sitting exactly at the group's last number, 50. -/
def exSeed50 : Message := ⟨50, ("[PATCH 1/1] z"), ("alice"), ("d"), ("<s50>"), []⟩

/-- An archive whose only header is at number 50. -/
def exHeaders50 : Nat → Option Message := fun n => if n = 50 then some exSeed50 else none


/-! ### Helper lemmas -/

theorem foldl_append_first (ops : List Message) (t : Thread) :
    (ops.foldl Thread.append t).first = t.first := by
  induction ops generalizing t with
  | nil => rfl
  | cons m ops ih => simpa [Thread.append] using ih (t.append m)

theorem foldl_append_ident (ops : List Message) (t : Thread) :
    (ops.foldl Thread.append t).thread_identifier = t.thread_identifier := by
  induction ops generalizing t with
  | nil => rfl
  | cons m ops ih => simpa [Thread.append] using ih (t.append m)

theorem foldl_append_ignored (ops : List Message) (t : Thread) :
    (ops.foldl Thread.append t).ignored_references = t.ignored_references := by
  induction ops generalizing t with
  | nil => rfl
  | cons m ops ih => simpa [Thread.append] using ih (t.append m)

theorem foldl_append_thread (ops : List Message) (t : Thread) :
    (ops.foldl Thread.append t).thread = t.thread ++ ops := by
  induction ops generalizing t with
  | nil => simp
  | cons m ops ih =>
    rw [List.foldl_cons, ih (t.append m)]
    simp [Thread.append]

theorem foldl_append_ids (ops : List Message) (t : Thread) :
    (ops.foldl Thread.append t).ids = t.ids ++ ops.map Message.msg_id := by
  induction ops generalizing t with
  | nil => simp
  | cons m ops ih =>
    rw [List.foldl_cons, ih (t.append m)]
    simp [Thread.append]

theorem buildThread_first (seed : Message) (ops : List Message) :
    (buildThread seed ops).first = seed := foldl_append_first ops (mkThread seed)

theorem buildThread_ident (seed : Message) (ops : List Message) :
    (buildThread seed ops).thread_identifier = subjectIdentifier seed.subject :=
  foldl_append_ident ops (mkThread seed)

theorem buildThread_ignored (seed : Message) (ops : List Message) :
    (buildThread seed ops).ignored_references = seed.references :=
  foldl_append_ignored ops (mkThread seed)

theorem buildThread_thread (seed : Message) (ops : List Message) :
    (buildThread seed ops).thread = seed :: ops := by
  simpa [mkThread] using foldl_append_thread ops (mkThread seed)

theorem buildThread_ids (seed : Message) (ops : List Message) :
    (buildThread seed ops).ids = (buildThread seed ops).thread.map Message.msg_id := by
  simp [buildThread_thread, mkThread]
  simpa [mkThread] using foldl_append_ids ops (mkThread seed)

theorem subsetB_setDiff_iff (a b c : List String) :
    subsetB (setDiff a b) c = true ↔ ∀ r ∈ a, r ∈ c ∨ r ∈ b := by
  simp only [subsetB, setDiff, List.all_eq_true, List.mem_filter]
  constructor
  · intro h r hr
    by_cases hb : r ∈ b
    · exact Or.inr hb
    · exact Or.inl (by simpa using h r ⟨hr, by simpa using hb⟩)
  · rintro h r ⟨hr, hnb⟩
    rcases h r hr with h' | h'
    · simpa using h'
    · simp at hnb; exact absurd h' hnb

/-! ### Claims -/

/-- C1: for every reachable thread state and candidate message,
`should_include` is true iff the candidate's poster equals the seed's poster,
its subject identifier equals the seed's, and every reference it declares is
in `known_ids` or in `ignored_references`. -/
theorem C1_should_include_characterization :
    ∀ (seed : Message) (ops : List Message) (m : Message),
      (buildThread seed ops).should_include m = true ↔
        (m.poster = seed.poster ∧
         subjectIdentifier m.subject = subjectIdentifier seed.subject ∧
         ∀ r ∈ m.references,
           r ∈ (buildThread seed ops).ids ∨ r ∈ (buildThread seed ops).ignored_references) := by
  intro seed ops m
  unfold Thread.should_include
  rw [Bool.and_eq_true, Bool.and_eq_true]
  rw [buildThread_first, buildThread_ident, buildThread_ignored]
  rw [subsetB_setDiff_iff m.references seed.references (buildThread seed ops).ids]
  simp only [decide_eq_true_iff]
  tauto

/-- C7: after construction from a seed and any sequence of appends,
`known_ids` is exactly the set of message-ids of the members together with the
seed's id, and `ignored_references` is exactly the seed's own references,
unchanged. -/
theorem C7_thread_invariants :
    ∀ (seed : Message) (ops : List Message),
      (∀ i, i ∈ (buildThread seed ops).ids ↔
          i ∈ (buildThread seed ops).thread.map Message.msg_id ∨ i = seed.msg_id) ∧
      (buildThread seed ops).ignored_references = seed.references := by
  intro seed ops
  refine ⟨fun i => ?_, buildThread_ignored seed ops⟩
  rw [buildThread_ids]
  constructor
  · exact Or.inl
  · rintro (h | rfl)
    · exact h
    · rw [buildThread_thread]
      simp

/-- C4: during the forward scan an accepted candidate resets the stale-streak
counter to zero and a rejected candidate increments it by one; after six
consecutive rejections the scan stops, and the seventh message is not
evaluated or included even if it would have matched. -/
theorem C4_scan_streak :
    (∀ (t : Thread) (n : Nat) (m : Message) (ms : List Message), n ≤ 5 →
        t.should_include m = true → scanLoop t n (m :: ms) = scanLoop (t.append m) 0 ms) ∧
    (∀ (t : Thread) (n : Nat) (m : Message) (ms : List Message), n ≤ 5 →
        t.should_include m = false → scanLoop t n (m :: ms) = scanLoop t (n + 1) ms) ∧
    (∀ (t : Thread) (r1 r2 r3 r4 r5 r6 m7 : Message) (rest : List Message),
        t.should_include r1 = false → t.should_include r2 = false →
        t.should_include r3 = false → t.should_include r4 = false →
        t.should_include r5 = false → t.should_include r6 = false →
        scanLoop t 0 (r1 :: r2 :: r3 :: r4 :: r5 :: r6 :: m7 :: rest) = some t) := by
  refine ⟨?_, ?_, ?_⟩
  · intro t n m ms hn hinc
    have hgt : ¬ n > 5 := by omega
    simp [scanLoop, hgt, hinc]
  · intro t n m ms hn hinc
    have hgt : ¬ n > 5 := by omega
    simp [scanLoop, hgt, hinc]
  · intro t r1 r2 r3 r4 r5 r6 m7 rest h1 h2 h3 h4 h5 h6
    simp [scanLoop, h1, h2, h3, h4, h5, h6]

/-- C4 witness: concrete instances of the three parts of `C4_scan_streak`. -/
theorem C4_scan_streak_witness :
    scanLoop (mkThread exA) 0 [exC] = scanLoop ((mkThread exA).append exC) 0 [] ∧
    scanLoop (mkThread exA) 0 [exReject 11] = scanLoop (mkThread exA) 1 [] ∧
    scanLoop (mkThread exA) 0
        [exReject 11, exReject 12, exReject 13, exReject 14, exReject 15, exReject 16, exC] =
      some (mkThread exA) :=
  ⟨C4_scan_streak.1 (mkThread exA) 0 exC [] (by omega) (by decide),
   C4_scan_streak.2.1 (mkThread exA) 0 (exReject 11) [] (by omega) (by decide),
   C4_scan_streak.2.2 (mkThread exA) (exReject 11) (exReject 12) (exReject 13) (exReject 14)
     (exReject 15) (exReject 16) exC [] (by decide) (by decide) (by decide) (by decide)
     (by decide) (by decide)⟩

theorem limitAux_eq_take (lim : Nat) (l : List α) :
    ∀ c, limitAux lim c l = l.take (lim + 1 - c) := by
  induction l with
  | nil => intro c; simp [limitAux]
  | cons x xs ih =>
    intro c
    by_cases h : c > lim
    · have : lim + 1 - c = 0 := by omega
      simp [limitAux, h, this]
    · have h2 : lim + 1 - c = (lim + 1 - (c + 1)) + 1 := by omega
      simp [limitAux, h, h2, ih (c + 1)]

/-- C8: the cap of the forward scan is off by one: `limit` keeps the items
with enumeration counter `c ≤ limit`, i.e. the first `limit + 1` items, so a
scan with `search_limit = 100` can draw 101 headers (seed included), contrary
to the docstring "return only the first limit items". -/
theorem C8_limit_cap_off_by_one :
    (∀ (l : List Message) (lim : Nat), limitList l lim = l.take (lim + 1)) ∧
    (limitList (List.replicate 150 exA) 100).length = 101 := by
  constructor
  · intro l lim
    simpa using limitAux_eq_take lim l 0
  · rw [limitList, limitAux_eq_take]
    simp


theorem foldl_skip_append (l : List Message) (skip : Message → Bool) (g : Message → List String) :
    ∀ acc, l.foldl (fun lines m => if skip m then lines else lines ++ g m) acc =
      acc ++ ((l.filter fun m => ! skip m).map g).flatten := by
  induction l with
  | nil => intro acc; simp
  | cons m l ih =>
    intro acc
    by_cases h : skip m
    · simp [List.foldl_cons, h, ih]
    · simp [List.foldl_cons, h, ih]

/-- C6: `mboxify` omits a member's block exactly when its subject matches the
counter-zero pattern `" 0+/[0-9]+"` and its body contains no line starting
with `"diff "`; every other member contributes its block, in `in_order`
order. -/
theorem C6_mbox_skip_iff :
    ∀ (server group : String) (parseName fmtDate : String → String)
      (conn : Nat → List String) (t : Thread),
      mboxLines server group parseName fmtDate conn t =
        ((t.in_order.filter fun m =>
            ! (zeroSearch m.subject && ! is_diff (conn m.number))).map
          fun m => blockLines server group parseName fmtDate m (conn m.number)).flatten := by
  intro server group parseName fmtDate conn t
  have h := foldl_skip_append t.in_order
      (fun m => zeroSearch m.subject && ! is_diff (conn m.number))
      (fun m => blockLines server group parseName fmtDate m (conn m.number)) []
  simpa [mboxLines] using h

theorem scanLoop_none_iff :
    ∀ (ms : List Message) (t : Thread) (n : Nat),
      scanLoop t n ms = none ↔ ∀ x ∈ streakTrace t n ms, x ≤ 5 := by
  intro ms
  induction ms with
  | nil => intro t n; simp [scanLoop, streakTrace]
  | cons m ms ih =>
    intro t n
    by_cases h : n > 5
    · simp [scanLoop, streakTrace, h]
    · by_cases hi : t.should_include m
      · have e1 : scanLoop t n (m :: ms) = scanLoop (t.append m) 0 ms := by
          simp [scanLoop, h, hi]
        have e2 : streakTrace t n (m :: ms) = n :: streakTrace (t.append m) 0 ms := by
          simp [streakTrace, h, hi]
        rw [e1, e2, ih]
        simp only [List.mem_cons, forall_eq_or_imp]
        constructor
        · intro ha; exact ⟨by omega, ha⟩
        · exact And.right
      · have e1 : scanLoop t n (m :: ms) = scanLoop t (n + 1) ms := by
          simp [scanLoop, h, hi]
        have e2 : streakTrace t n (m :: ms) = n :: streakTrace t (n + 1) ms := by
          simp [streakTrace, h, hi]
        rw [e1, e2, ih]
        simp only [List.mem_cons, forall_eq_or_imp]
        constructor
        · intro ha; exact ⟨by omega, ha⟩
        · exact And.right

/-- C3 counterexample: a stream of two headers (seed plus one accepted
follow-up) under `search_limit = 100` is exhausted far below the cap and
without the streak ever exceeding the threshold, and the run still fails with
the series-bounds error — the failure is not limited to exhaustion at the
`search_limit` cap. -/
theorem C3_short_stream_counterexample :
    seriesFromStream [exA, exC] 100 = Except.error RunError.seriesBounds ∧
    ([exA, exC] : List Message).length < 100 :=
  ⟨rfl, by decide⟩

/-- C3 amended: the forward scan fails with the series-bounds error exactly
when the capped iterator yields a seed and is then exhausted — whether the cap
was reached or the underlying stream ended first — without the non-matching
streak ever exceeding the give-up threshold; an `Except.error` result carries
no document. -/
theorem C3_seriesBounds_iff :
    ∀ (stream : List Message) (searchLimit : Nat),
      seriesFromStream stream searchLimit = Except.error RunError.seriesBounds ↔
        ∃ seed rest, limitList stream searchLimit = seed :: rest ∧
          ∀ x ∈ streakTrace (mkThread seed) 0 rest, x ≤ 5 := by
  intro stream lim
  cases hl : limitList stream lim with
  | nil => simp [seriesFromStream, hl]
  | cons s rest =>
    cases hs : scanLoop (mkThread s) 0 rest with
    | none =>
      simp only [seriesFromStream, hl, hs]
      constructor
      · intro _
        exact ⟨s, rest, rfl, (scanLoop_none_iff rest (mkThread s) 0).1 hs⟩
      · intro _; trivial
    | some t =>
      simp only [seriesFromStream, hl, hs]
      constructor
      · intro hcontra; cases hcontra
      · rintro ⟨s', rest', heq, htr⟩
        obtain ⟨rfl, rfl⟩ : s = s' ∧ rest = rest' := by
          constructor <;> [exact (List.cons.injEq .. ▸ heq).1; exact (List.cons.injEq .. ▸ heq).2]
        rw [(scanLoop_none_iff rest (mkThread s) 0).2 htr] at hs
        cases hs

theorem msf_last_nil (headers : Nat → Option Message) (last : Nat) :
    messagesStartingFrom headers last last = [] := by
  simp [messagesStartingFrom, msfAux]

theorem xoverM_head_some (headers : Nat → Option Message) (b e : Nat) (m : Message)
    (hbe : b < e) (h : headers b = some m) :
    ∃ rest, xoverM headers b e = m :: rest := by
  unfold xoverM
  rw [if_neg (by omega : ¬ b = e)]
  rw [Nat.min_eq_left (by omega : b ≤ e), Nat.max_eq_right (by omega : b ≤ e)]
  have he : e + 1 - b = (e - b) + 1 := by omega
  rw [he, List.range'_succ]
  exact ⟨_, List.filterMap_cons_some h⟩

/-- C9 amended: the seed-not-found failure happens exactly when the forward
header stream is empty; for a starting number strictly below the group's last
number at which a header exists, that header becomes the seed and the error
cannot occur; but a start at exactly the last number always yields an empty
stream (`while start_id < self.last`), even when a header exists there. -/
theorem C9_seed_errors :
    (∀ (headers : Nat → Option Message) (last start lim : Nat),
        runSeries headers last start lim = Except.error RunError.seedNotFound ↔
          messagesStartingFrom headers last start = []) ∧
    (∀ (headers : Nat → Option Message) (last start : Nat) (m : Message),
        start < last → headers start = some m →
          ∃ rest, messagesStartingFrom headers last start = m :: rest) ∧
    (∀ (headers : Nat → Option Message) (last : Nat),
        messagesStartingFrom headers last last = []) := by
  refine ⟨?_, ?_, msf_last_nil⟩
  · intro headers last start lim
    cases h : messagesStartingFrom headers last start with
    | nil =>
      simp [runSeries, seriesFromStream, h, limitList, limitAux]
    | cons x xs =>
      have hl : limitList (x :: xs) lim = x :: limitAux lim 1 xs := by
        simp [limitList, limitAux]
      cases hs : scanLoop (mkThread x) 0 (limitAux lim 1 xs) with
      | none => simp [runSeries, seriesFromStream, h, hl, hs]
      | some t => simp [runSeries, seriesFromStream, h, hl, hs]
  · intro headers last start m h1 h2
    unfold messagesStartingFrom
    rw [msfAux]
    rw [if_pos h1]
    have hlt : start < min (start + 20) last := by omega
    obtain ⟨rest, hx⟩ := xoverM_head_some headers start (min (start + 20) last) m hlt h2
    exact ⟨rest ++ msfAux headers last last (min (start + 20) last + 1), by rw [hx]; simp⟩

/-- C9 witness: in the archive `exHeaders` (last number 40) a header exists at
the starting number 10, and it heads the forward stream. -/
theorem C9_seed_errors_witness :
    ∃ rest, messagesStartingFrom exHeaders 40 10 = exA :: rest :=
  C9_seed_errors.2.1 exHeaders 40 10 exA (by omega) (by decide)

/-- C9 counterexample: in `exHeaders50` a header exists at number 50, the
group's last number, yet a run starting there fails with the seed-not-found
error, contradicting the claim that the error occurs only when no header
exists at the resolved starting number. -/
theorem C9_seed_at_last_counterexample :
    runSeries exHeaders50 50 50 100 = Except.error RunError.seedNotFound ∧
    exHeaders50 50 = some exSeed50 :=
  ⟨rfl, rfl⟩



theorem takeToBracket_append (p q : List Char) (hp : (']') ∉ p) :
    takeToBracket (p ++ q) = p ++ takeToBracket q := by
  induction p with
  | nil => simp
  | cons c cs ih =>
    have hc : ¬ c = (']') := fun h => hp (by simp [h])
    have hcs : (']') ∉ cs := fun h => hp (List.mem_cons_of_mem _ h)
    simp [takeToBracket, hc, ih hcs]

theorem replAux_append (p : List Char) (c : Char) (hc : ¬ c.isDigit = true) :
    ∀ (ds q : List Char),
      replAux ds (p ++ c :: q) = replAux ds (p ++ [c]) ++ replAux [] q := by
  induction p with
  | nil =>
    intro ds q
    by_cases h : c = ('/') ∧ ds ≠ []
    · simp [replAux, hc, h]
    · simp [replAux, hc, h]
  | cons a p ih =>
    intro ds q
    by_cases ha : a.isDigit = true
    · simp only [List.cons_append, replAux, ha, if_true]
      exact ih (a :: ds) q
    · by_cases h : a = ('/') ∧ ds ≠ []
      · simp only [List.cons_append, replAux, ha, if_false, h, if_true, and_self,
          Bool.false_eq_true]
        simp [ih [] q, h.2]
      · simp only [List.cons_append, replAux, ha, if_false, h, Bool.false_eq_true]
        simp [ih [] q]

theorem replAux_digits_slash :
    ∀ (d ds r : List Char), (∀ ch ∈ d, ch.isDigit = true) → (d ≠ [] ∨ ds ≠ []) →
      replAux ds (d ++ ('/') :: r) = ('X') :: ('/') :: replAux [] r := by
  intro d
  induction d with
  | nil =>
    intro ds r _ h
    have hds : ds ≠ [] := by tauto
    show replAux ds (('/') :: r) = _
    rw [replAux, if_neg (by decide : ¬ ((('/') : Char).isDigit = true)), if_pos ⟨rfl, hds⟩]
  | cons a d ih =>
    intro ds r hall h
    have ha : a.isDigit = true := hall a (by simp)
    show replAux ds (a :: (d ++ ('/') :: r)) = _
    rw [replAux, if_pos ha]
    exact ih (a :: ds) r (fun ch hch => hall ch (by simp [hch])) (Or.inr (by simp))

theorem identChars_counter (p : List Char) (c : Char) (d q : List Char)
    (hp : (']') ∉ p) (hc1 : ¬ c.isDigit = true) (hc2 : c ≠ (']'))
    (hd : ∀ ch ∈ d, ch.isDigit = true) (hne : d ≠ []) :
    identChars (p ++ c :: d ++ ('/') :: q) =
      replAux [] (p ++ [c]) ++ ('X') :: ('/') :: replAux [] (takeToBracket q) := by
  have hnotbr : (']') ∉ p ++ c :: d ++ [('/')] := by
    intro hmem
    simp only [List.mem_append, List.mem_cons, List.mem_singleton] at hmem
    rcases hmem with (h | (h | h)) | h
    · exact hp h
    · exact hc2 h.symm
    · exact absurd (hd _ h) (by decide)
    · exact absurd h (by decide)
  have e0 : p ++ c :: d ++ ('/') :: q = (p ++ c :: d ++ [('/')]) ++ q := by simp
  have e1 : takeToBracket (p ++ c :: d ++ ('/') :: q) =
      (p ++ c :: d ++ [('/')]) ++ takeToBracket q := by
    rw [e0, takeToBracket_append _ _ hnotbr]
  unfold identChars replNum
  rw [e1]
  have e2 : (p ++ c :: d ++ [('/')]) ++ takeToBracket q =
      p ++ c :: (d ++ ('/') :: takeToBracket q) := by simp
  rw [e2, replAux_append p c hc1 [] (d ++ ('/') :: takeToBracket q),
    replAux_digits_slash d [] (takeToBracket q) hd (Or.inl hne)]

/-- C2: `subject_identifier` keeps the text up to the first `]` and replaces
each digit run directly before a `/` by `X`, leaving the denominator: subjects
differing only in the counter numerator share an identifier (in particular
`"[PATCH 1/3] x"` and `"[PATCH 2/3] x"` both give `"[PATCH X/3]"`), while a
`"Re: "` prefix always changes the identifier. -/
theorem C2_subject_identifier :
    (∀ (p : List Char) (c : Char) (d1 d2 q : List Char),
        (']') ∉ p → ¬ c.isDigit = true → c ≠ (']') →
        d1 ≠ [] → d2 ≠ [] →
        (∀ ch ∈ d1, ch.isDigit = true) → (∀ ch ∈ d2, ch.isDigit = true) →
        subjectIdentifier (String.mk (p ++ c :: d1 ++ ('/') :: q)) =
          subjectIdentifier (String.mk (p ++ c :: d2 ++ ('/') :: q))) ∧
    subjectIdentifier (("[PATCH 1/3] x")) = ("[PATCH X/3]") ∧
    subjectIdentifier (("[PATCH 2/3] x")) = ("[PATCH X/3]") ∧
    (∀ s : String, subjectIdentifier (("Re: ") ++ s) ≠ subjectIdentifier s) := by
  refine ⟨?_, by decide, by decide, ?_⟩
  · intro p c d1 d2 q hp hc1 hc2 h1 h2 hd1 hd2
    show String.mk (identChars (p ++ c :: d1 ++ ('/') :: q)) =
      String.mk (identChars (p ++ c :: d2 ++ ('/') :: q))
    rw [identChars_counter p c d1 q hp hc1 hc2 hd1 h1,
      identChars_counter p c d2 q hp hc1 hc2 hd2 h2]
  · intro s h
    have hdata : identChars (("Re: ") ++ s).data =
        ('R') :: ('e') :: (':') :: (' ') :: identChars s.data := by
      have h1 : (("Re: ") ++ s).data = ['R', ('e'), (':'), (' ')] ++ s.data := by
        rw [String.data_append]
      rw [h1]
      unfold identChars replNum
      rw [takeToBracket_append _ _ (by decide)]
      have h2 : (['R', ('e'), (':'), (' ')] : List Char) ++ takeToBracket s.data =
          ['R', ('e'), (':')] ++ (' ') :: takeToBracket s.data := by simp
      rw [h2, replAux_append ['R', ('e'), (':')] (' ') (by decide) [] (takeToBracket s.data)]
      have h3 : replAux [] ((['R', ('e'), (':')] : List Char) ++ [(' ')]) =
          ['R', ('e'), (':'), (' ')] := by decide
      rw [h3]
      simp
    have hlist : identChars (("Re: ") ++ s).data = identChars s.data := congrArg String.data h
    rw [hdata] at hlist
    have hlen := congrArg List.length hlist
    simp only [List.length_cons] at hlen
    omega

/-- C2 witness: a concrete instance of the numerator-invariance part of
`C2_subject_identifier`, at `"[PATCH 1/3] x"` versus `"[PATCH 2/3] x"`. -/
theorem C2_subject_identifier_witness :
    subjectIdentifier (String.mk (("[PATCH").data ++ (' ') :: [('1')] ++ ('/') :: ("3] x").data)) =
      subjectIdentifier (String.mk (("[PATCH").data ++ (' ') :: [('2')] ++ ('/') :: ("3] x").data)) :=
  C2_subject_identifier.1 (("[PATCH").data) (' ') [('1')] [('2')] (("3] x").data)
    (by decide) (by decide) (by decide) (by decide) (by decide) (by decide) (by decide)


theorem skStep_parity :
    ∀ (l acc : List Char) (n : Nat),
      (∀ (i : Nat) (tk : Tok), (skStep (Sum.inl acc) l).get? i = some tk →
          tk.isStr = decide (i % 2 = 0)) ∧
      (∀ (i : Nat) (tk : Tok), (skStep (Sum.inr n) l).get? i = some tk →
          tk.isStr = decide (i % 2 = 1)) := by
  intro l
  induction l with
  | nil =>
    intro acc n
    constructor
    · intro i tk htk
      simp only [skStep] at htk
      match i with
      | 0 =>
        rw [List.get?_cons_zero] at htk
        cases htk
        rfl
      | i + 1 =>
        rw [List.get?_cons_succ, List.get?_nil] at htk
        exact Option.noConfusion htk
    · intro i tk htk
      simp only [skStep] at htk
      match i with
      | 0 =>
        rw [List.get?_cons_zero] at htk
        cases htk
        rfl
      | 1 =>
        rw [List.get?_cons_succ, List.get?_cons_zero] at htk
        cases htk
        rfl
      | i + 2 =>
        rw [List.get?_cons_succ, List.get?_cons_succ, List.get?_nil] at htk
        exact Option.noConfusion htk
  | cons c cs ih =>
    intro acc n
    constructor
    · intro i tk htk
      by_cases hc : c.isDigit = true
      · simp only [skStep] at htk
        rw [if_pos hc] at htk
        match i with
        | 0 =>
          rw [List.get?_cons_zero] at htk
          cases htk
          rfl
        | i + 1 =>
          rw [List.get?_cons_succ] at htk
          rw [(ih [] (digVal c)).2 i tk htk]
          have hmod : ((i + 1) % 2 = 0) ↔ (i % 2 = 1) := by omega
          simp [hmod]
      · simp only [skStep] at htk
        rw [if_neg hc] at htk
        exact (ih (c :: acc) n).1 i tk htk
    · intro i tk htk
      by_cases hc : c.isDigit = true
      · simp only [skStep] at htk
        rw [if_pos hc] at htk
        exact (ih acc (10 * n + digVal c)).2 i tk htk
      · simp only [skStep] at htk
        rw [if_neg hc] at htk
        match i with
        | 0 =>
          rw [List.get?_cons_zero] at htk
          cases htk
          rfl
        | i + 1 =>
          rw [List.get?_cons_succ] at htk
          rw [(ih [c] n).1 i tk htk]
          have hmod : ((i + 1) % 2 = 1) ↔ (i % 2 = 0) := by omega
          simp [hmod]

/-- C10: in every sortkey the even positions hold text tokens and the odd
positions hold integer tokens, so two sortkeys always agree on token type at
every common position and the lexicographic comparison driving `in_order`
never faces an integer against a string. -/
theorem C10_sortkey_alternation :
    (∀ (s : String) (i : Nat) (h : i < (sortkeyL s).length),
        ((sortkeyL s).get ⟨i, h⟩).isStr = decide (i % 2 = 0)) ∧
    (∀ (s1 s2 : String) (i : Nat) (h1 : i < (sortkeyL s1).length)
        (h2 : i < (sortkeyL s2).length),
        ((sortkeyL s1).get ⟨i, h1⟩).isStr = ((sortkeyL s2).get ⟨i, h2⟩).isStr) := by
  have key : ∀ (s : String) (i : Nat) (h : i < (sortkeyL s).length),
      ((sortkeyL s).get ⟨i, h⟩).isStr = decide (i % 2 = 0) := by
    intro s i h
    exact (skStep_parity s.data [] 0).1 i _ (List.get?_eq_get h)
  refine ⟨key, fun s1 s2 i h1 h2 => ?_⟩
  rw [key s1 i h1, key s2 i h2]

/-- C10 witness: concrete instances of both parts of
`C10_sortkey_alternation` at subjects `"[PATCH 9/10]"` and `"[PATCH 10/10]"`. -/
theorem C10_sortkey_alternation_witness :
    ((sortkeyL (("[PATCH 9/10]"))).get ⟨1, by decide⟩).isStr = decide (1 % 2 = 0) ∧
    ((sortkeyL (("[PATCH 9/10]"))).get ⟨2, by decide⟩).isStr =
      ((sortkeyL (("[PATCH 10/10]"))).get ⟨2, by decide⟩).isStr :=
  ⟨C10_sortkey_alternation.1 (("[PATCH 9/10]")) 1 (by decide),
   C10_sortkey_alternation.2 (("[PATCH 9/10]")) (("[PATCH 10/10]")) 2 (by decide) (by decide)⟩


theorem listLtBy_irrefl (lt : α → α → Bool) (hirr : ∀ a, lt a a = false) :
    ∀ l, listLtBy lt l l = false := by
  intro l
  induction l with
  | nil => rfl
  | cons a l ih => simp [listLtBy, hirr a, ih]

theorem listLtBy_trans (lt : α → α → Bool)
    (htr : ∀ a b c, lt a b = true → lt b c = true → lt a c = true)
    (heq : ∀ a b, lt a b = false → lt b a = false → a = b) :
    ∀ l1 l2 l3, listLtBy lt l1 l2 = true → listLtBy lt l2 l3 = true →
      listLtBy lt l1 l3 = true := by
  intro l1
  induction l1 with
  | nil =>
    intro l2 l3 h12 h23
    cases l2 with
    | nil => exact absurd h12 (by simp [listLtBy])
    | cons b bs =>
      cases l3 with
      | nil => exact absurd h23 (by simp [listLtBy])
      | cons c cs => simp [listLtBy]
  | cons a as ih =>
    intro l2 l3 h12 h23
    cases l2 with
    | nil => exact absurd h12 (by simp [listLtBy])
    | cons b bs =>
      cases l3 with
      | nil => exact absurd h23 (by simp [listLtBy])
      | cons c cs =>
        simp only [listLtBy] at h12 h23 ⊢
        by_cases hab : lt a b = true
        · by_cases hbc : lt b c = true
          · simp [htr a b c hab hbc]
          · by_cases hcb : lt c b = true
            · simp [hbc, hcb] at h23
            · have hbc' : b = c :=
                heq b c (by simpa using hbc) (by simpa using hcb)
              subst hbc'
              simp [hab]
        · by_cases hba : lt b a = true
          · simp [hab, hba] at h12
          · have hab' : a = b := heq a b (by simpa using hab) (by simpa using hba)
            subst hab'
            by_cases hac : lt a c = true
            · simp [hac]
            · by_cases hca : lt c a = true
              · simp [hac, hca] at h23
              · have hac' : a = c :=
                  heq a c (by simpa using hac) (by simpa using hca)
                subst hac'
                simp only [hac, if_false] at h12 h23 ⊢
                simp [hac] at h12 h23 ⊢
                exact ih bs cs h12 h23

theorem listLtBy_eq_of_not (lt : α → α → Bool)
    (heq : ∀ a b, lt a b = false → lt b a = false → a = b) :
    ∀ l1 l2, listLtBy lt l1 l2 = false → listLtBy lt l2 l1 = false → l1 = l2 := by
  intro l1
  induction l1 with
  | nil =>
    intro l2 h12 h21
    cases l2 with
    | nil => rfl
    | cons b bs => exact absurd h12 (by simp [listLtBy])
  | cons a as ih =>
    intro l2 h12 h21
    cases l2 with
    | nil => exact absurd h21 (by simp [listLtBy])
    | cons b bs =>
      simp only [listLtBy] at h12 h21
      by_cases hab : lt a b = true
      · simp [hab] at h12
      · by_cases hba : lt b a = true
        · simp [hba] at h21
        · have : a = b := heq a b (by simpa using hab) (by simpa using hba)
          subst this
          simp [hab] at h12 h21
          rw [ih bs h12 h21]

theorem chLt_irrefl : ∀ a : Char, chLt a a = false := by
  intro a; simp [chLt]

theorem chLt_trans : ∀ a b c : Char, chLt a b = true → chLt b c = true → chLt a c = true := by
  intro a b c hab hbc
  simp only [chLt, decide_eq_true_iff] at *
  exact lt_trans hab hbc

theorem chLt_eq_of_not : ∀ a b : Char, chLt a b = false → chLt b a = false → a = b := by
  intro a b hab hba
  simp only [chLt, decide_eq_false_iff_not, not_lt] at hab hba
  exact le_antisymm hba hab

theorem strLt_irrefl : ∀ a : String, strLt a a = false := fun a =>
  listLtBy_irrefl chLt chLt_irrefl a.data

theorem strLt_trans : ∀ a b c : String,
    strLt a b = true → strLt b c = true → strLt a c = true := fun a b c =>
  listLtBy_trans chLt chLt_trans chLt_eq_of_not a.data b.data c.data

theorem strLt_eq_of_not : ∀ a b : String,
    strLt a b = false → strLt b a = false → a = b := fun a b h1 h2 =>
  String.ext (listLtBy_eq_of_not chLt chLt_eq_of_not a.data b.data h1 h2)

theorem tokLt_irrefl : ∀ a : Tok, tokLt a a = false := by
  intro a
  cases a with
  | str s => exact strLt_irrefl s
  | num n => simp [tokLt]

theorem tokLt_trans : ∀ a b c : Tok,
    tokLt a b = true → tokLt b c = true → tokLt a c = true := by
  intro a b c hab hbc
  cases a <;> cases b <;> cases c <;> simp_all [tokLt]
  · exact strLt_trans _ _ _ hab hbc
  · omega

theorem tokLt_eq_of_not : ∀ a b : Tok,
    tokLt a b = false → tokLt b a = false → a = b := by
  intro a b hab hba
  cases a <;> cases b <;> simp_all [tokLt]
  · exact strLt_eq_of_not _ _ hab hba
  · omega

theorem keyLt_irrefl : ∀ k : List Tok, keyLt k k = false :=
  listLtBy_irrefl tokLt tokLt_irrefl

theorem keyLt_trans : ∀ k1 k2 k3 : List Tok,
    keyLt k1 k2 = true → keyLt k2 k3 = true → keyLt k1 k3 = true :=
  listLtBy_trans tokLt tokLt_trans tokLt_eq_of_not

theorem keyLt_asymm : ∀ k1 k2 : List Tok, keyLt k1 k2 = true → keyLt k2 k1 = false := by
  intro k1 k2 h
  by_contra hc
  rw [Bool.not_eq_false] at hc
  have := keyLt_trans k1 k2 k1 h hc
  rw [keyLt_irrefl k1] at this
  cases this

theorem insSorted_mem : ∀ (m y : Message) (l : List Message),
    y ∈ insSorted m l → y = m ∨ y ∈ l := by
  intro m y l
  induction l with
  | nil => intro h; simpa [insSorted] using h
  | cons x xs ih =>
    intro h
    by_cases hlt : keyLt (msgKey m) (msgKey x) = true
    · simp only [insSorted, hlt, if_true] at h
      rcases List.mem_cons.1 h with h | h
      · exact Or.inl h
      · exact Or.inr h
    · simp only [insSorted, hlt, if_false, Bool.false_eq_true] at h
      rcases List.mem_cons.1 h with h | h
      · exact Or.inr (by simp [h])
      · rcases ih h with h | h
        · exact Or.inl h
        · exact Or.inr (by simp [h])

theorem insSorted_pairwise (m : Message) (l : List Message)
    (h : List.Pairwise (fun a b => keyLt (msgKey b) (msgKey a) = false) l) :
    List.Pairwise (fun a b => keyLt (msgKey b) (msgKey a) = false) (insSorted m l) := by
  induction l with
  | nil => simp [insSorted]
  | cons x xs ih =>
    rcases List.pairwise_cons.1 h with ⟨hx, hxs⟩
    by_cases hlt : keyLt (msgKey m) (msgKey x) = true
    · simp only [insSorted, hlt, if_true]
      refine List.pairwise_cons.2 ⟨?_, h⟩
      intro z hz
      rcases List.mem_cons.1 hz with rfl | hz
      · exact keyLt_asymm _ _ hlt
      · by_contra hc
        rw [Bool.not_eq_false] at hc
        have := keyLt_trans _ _ _ hc hlt
        rw [hx z hz] at this
        cases this
    · simp only [insSorted, hlt, if_false, Bool.false_eq_true]
      refine List.pairwise_cons.2 ⟨?_, ih hxs⟩
      intro y hy
      rcases insSorted_mem m y xs hy with rfl | hy
      · simpa using hlt
      · exact hx y hy

theorem sortMsgs_pairwise : ∀ (l acc : List Message),
    List.Pairwise (fun a b => keyLt (msgKey b) (msgKey a) = false) acc →
    List.Pairwise (fun a b => keyLt (msgKey b) (msgKey a) = false)
      (l.foldl (fun acc m => insSorted m acc) acc) := by
  intro l
  induction l with
  | nil => intro acc h; exact h
  | cons m l ih =>
    intro acc h
    exact ih (insSorted m acc) (insSorted_pairwise m acc h)

theorem insSorted_filter_ne (m : Message) (k : List Tok) (l : List Message)
    (hm : decide (msgKey m = k) = false) :
    (insSorted m l).filter (fun x => decide (msgKey x = k)) =
      l.filter (fun x => decide (msgKey x = k)) := by
  induction l with
  | nil => simp [insSorted, hm]
  | cons x xs ih =>
    by_cases hlt : keyLt (msgKey m) (msgKey x) = true
    · simp [insSorted, hlt, List.filter_cons, hm]
    · simp only [insSorted, hlt, if_false, Bool.false_eq_true]
      simp [List.filter_cons, ih]

theorem insSorted_filter_eq (m : Message) (k : List Tok) (l : List Message)
    (hl : List.Pairwise (fun a b => keyLt (msgKey b) (msgKey a) = false) l)
    (hm : decide (msgKey m = k) = true) :
    (insSorted m l).filter (fun x => decide (msgKey x = k)) =
      l.filter (fun x => decide (msgKey x = k)) ++ [m] := by
  have hmk : msgKey m = k := of_decide_eq_true hm
  induction l with
  | nil => simp [insSorted, hm]
  | cons x xs ih =>
    rcases List.pairwise_cons.1 hl with ⟨hx, hxs⟩
    by_cases hlt : keyLt (msgKey m) (msgKey x) = true
    · simp only [insSorted, hlt, if_true]
      have hxk : decide (msgKey x = k) = false := by
        apply decide_eq_false
        intro hxe
        rw [hxe, ← hmk] at hlt
        rw [keyLt_irrefl] at hlt
        cases hlt
      have hall : (x :: xs).filter (fun y => decide (msgKey y = k)) = [] := by
        apply List.filter_eq_nil_iff.2
        intro z hz
        rcases List.mem_cons.1 hz with rfl | hz
        · simp [hxk]
        · simp only [Bool.not_eq_true]
          apply decide_eq_false
          intro hze
          have h1 := hx z hz
          rw [hze, ← hmk] at h1
          rw [h1] at hlt
          cases hlt
      rw [List.filter_cons_of_pos (by simpa using hm)]
      rw [hall]
      simp
    · simp only [insSorted, hlt, if_false, Bool.false_eq_true]
      by_cases hxk : decide (msgKey x = k) = true
      · rw [List.filter_cons_of_pos (by simpa using hxk),
          List.filter_cons_of_pos (by simpa using hxk), ih hxs]
        rfl
      · rw [List.filter_cons_of_neg (by simpa using hxk),
          List.filter_cons_of_neg (by simpa using hxk), ih hxs]

theorem sortMsgs_filter : ∀ (l acc : List Message) (k : List Tok),
    List.Pairwise (fun a b => keyLt (msgKey b) (msgKey a) = false) acc →
    (l.foldl (fun acc m => insSorted m acc) acc).filter (fun x => decide (msgKey x = k)) =
      acc.filter (fun x => decide (msgKey x = k)) ++
        l.filter (fun x => decide (msgKey x = k)) := by
  intro l
  induction l with
  | nil => intro acc k _; simp
  | cons m l ih =>
    intro acc k hacc
    rw [List.foldl_cons, ih (insSorted m acc) k (insSorted_pairwise m acc hacc)]
    by_cases hm : decide (msgKey m = k) = true
    · rw [insSorted_filter_eq m k acc hacc hm,
        List.filter_cons_of_pos (by simpa using hm)]
      simp
    · rw [insSorted_filter_ne m k acc (by simpa using hm),
        List.filter_cons_of_neg (by simpa using hm)]

/-- C5 amended: `in_order` returns the members sorted by `sortkey` under the
Python 2 comparison, and members with equal sortkey appear in the order they
were inserted into the thread (seed, then forward-scan members, then
backward-scan members) — which is ascending archive order for the seed and
forward-scan members but places lower-numbered backward-scan members last. -/
theorem C5_in_order_sorted_stable :
    ∀ t : Thread,
      List.Pairwise (fun a b => keyLt (msgKey b) (msgKey a) = false) t.in_order ∧
      ∀ k : List Tok,
        t.in_order.filter (fun m => decide (msgKey m = k)) =
          t.thread.filter (fun m => decide (msgKey m = k)) := by
  intro t
  constructor
  · exact sortMsgs_pairwise t.thread [] List.Pairwise.nil
  · intro k
    have h := sortMsgs_filter t.thread [] k List.Pairwise.nil
    simpa [Thread.in_order, sortMsgs] using h

/-- C5 counterexample: a full run over `exHeaders` reaches the thread whose
members are the seed `exA` (number 10) and the backward-scan member `exB`
(number 7); the two have equal sortkey yet `in_order` lists the seed first, so
equal-key members are not in ascending archive numeric order. -/
theorem C5_backward_tie_counterexample :
    runSeries exHeaders 40 10 100 = Except.ok exThreadC5 ∧
    exThreadC5.in_order = [exA, exB] ∧
    msgKey exA = msgKey exB ∧
    exB.number < exA.number :=
  ⟨rfl, rfl, rfl, by decide⟩


end GitFetchSeries
